import Mathlib

/-!
Verification of the Bounty Watch domain-lookup pipeline.

The definitions below are a shallow embedding of the background service
worker of the extension (background.js and its variants).  Network fetches,
the chrome.storage key-value store and the browser URL parser are external
collaborators; they enter the embedding as explicit parameters (a fetch
oracle mapping each probed URL to its outcome, the stored manual-program
list, and a try-parse oracle modelling the URL constructor).  Everything
else (parsers, merge/dedupe, lookup orchestration, cache TTL decisions,
badge guards) is translated directly from the JavaScript source.
-/

namespace BountyWatch

/-- Program Record, as built by makeProgram in background.js. -/
structure Program where
  platform : String
  link : String
  scope : String
  description : String
  rewards : String
deriving DecidableEq, Repr

/-- background.js makeProgram: description and rewards always empty. -/
def makeProgram (source link domain : String) : Program :=
  { platform := source, link := link, scope := domain,
    description := "", rewards := "" }

/-- JS String.prototype.startsWith, on the underlying characters. -/
def startsWithChars : List Char → List Char → Bool
  | [], _ => true
  | _ :: _, [] => false
  | p :: ps, c :: cs => (c == p) && startsWithChars ps cs

def startsWithStr (s pat : String) : Bool :=
  startsWithChars pat.data s.data

/-- JS String.prototype.replace with a regex matching one trailing
slash, as applied to the normalized href in dedupePrograms: drops a
single final slash when present. -/
def stripTrailingSlash (s : String) : String :=
  match s.data.reverse with
  | '/' :: rest => rest.reverse.asString
  | _ => s

/-- The canonical dedupe key of dedupePrograms: the try/catch around
new URL(p.link) is modelled by the oracle tryHref, which returns the
normalized absolute href of the link when it parses and none when the
URL constructor throws; on success the key is the href with one trailing
slash stripped, on failure the raw link string. -/
def canonicalKey (tryHref : String → Option String) (link : String) : String :=
  match tryHref link with
  | some href => stripTrailingSlash href
  | none => link

/-- The loop body of dedupePrograms: a JS Map keyed by canonical key,
keeping the first record per key; Array.from(map.values()) returns the
kept records in first-insertion order, which this recursion produces
directly.  seen carries the keys already present in the map. -/
def dedupeGo (tryHref : String → Option String) :
    List Program → List String → List Program
  | [], _ => []
  | p :: rest, seen =>
    if canonicalKey tryHref p.link ∈ seen then
      dedupeGo tryHref rest seen
    else
      p :: dedupeGo tryHref rest (canonicalKey tryHref p.link :: seen)

/-- background.js dedupePrograms. -/
def dedupePrograms (tryHref : String → Option String) (l : List Program) :
    List Program :=
  dedupeGo tryHref l []

lemma dedupeGo_cons_of_mem {tryHref : String → Option String} {p : Program}
    {rest : List Program} {seen : List String}
    (h : canonicalKey tryHref p.link ∈ seen) :
    dedupeGo tryHref (p :: rest) seen = dedupeGo tryHref rest seen := by
  simp [dedupeGo, h]

lemma dedupeGo_cons_of_not_mem {tryHref : String → Option String} {p : Program}
    {rest : List Program} {seen : List String}
    (h : canonicalKey tryHref p.link ∉ seen) :
    dedupeGo tryHref (p :: rest) seen
      = p :: dedupeGo tryHref rest (canonicalKey tryHref p.link :: seen) := by
  simp [dedupeGo, h]

lemma dedupeGo_sublist (tryHref : String → Option String) (l : List Program) :
    ∀ seen, List.Sublist (dedupeGo tryHref l seen) l := by
  induction l with
  | nil => intro seen; simp [dedupeGo]
  | cons p rest ih =>
    intro seen
    by_cases h : canonicalKey tryHref p.link ∈ seen
    · rw [dedupeGo_cons_of_mem h]
      exact (ih seen).cons p
    · rw [dedupeGo_cons_of_not_mem h]
      exact (ih _).cons₂ p

lemma dedupeGo_fresh (tryHref : String → Option String) (l : List Program) :
    ∀ seen q, q ∈ dedupeGo tryHref l seen → canonicalKey tryHref q.link ∉ seen := by
  induction l with
  | nil => intro seen q hq; simp [dedupeGo] at hq
  | cons p rest ih =>
    intro seen q hq
    by_cases h : canonicalKey tryHref p.link ∈ seen
    · rw [dedupeGo_cons_of_mem h] at hq
      exact ih seen q hq
    · rw [dedupeGo_cons_of_not_mem h] at hq
      rcases List.mem_cons.mp hq with rfl | hq2
      · exact h
      · intro hs
        exact ih _ q hq2 (List.mem_cons_of_mem _ hs)

lemma dedupeGo_pairwise (tryHref : String → Option String) (l : List Program) :
    ∀ seen, List.Pairwise
      (fun p q => canonicalKey tryHref p.link ≠ canonicalKey tryHref q.link)
      (dedupeGo tryHref l seen) := by
  induction l with
  | nil => intro seen; simp [dedupeGo]
  | cons p rest ih =>
    intro seen
    by_cases h : canonicalKey tryHref p.link ∈ seen
    · rw [dedupeGo_cons_of_mem h]
      exact ih seen
    · rw [dedupeGo_cons_of_not_mem h]
      refine List.pairwise_cons.mpr ⟨?_, ih _⟩
      intro q hq
      have := dedupeGo_fresh tryHref rest _ q hq
      intro heq
      exact this (heq ▸ List.mem_cons_self _ _)

lemma dedupeGo_mem_iff (tryHref : String → Option String) (l : List Program) :
    ∀ seen p, p ∈ dedupeGo tryHref l seen ↔
      ∃ pre post, l = pre ++ p :: post ∧
        canonicalKey tryHref p.link ∉ seen ∧
        ∀ q ∈ pre, canonicalKey tryHref q.link ≠ canonicalKey tryHref p.link := by
  induction l with
  | nil =>
    intro seen p
    constructor
    · intro hp; simp [dedupeGo] at hp
    · rintro ⟨pre, post, habs, -, -⟩
      exact absurd habs (by simp)
  | cons a rest ih =>
    intro seen p
    by_cases h : canonicalKey tryHref a.link ∈ seen
    · rw [dedupeGo_cons_of_mem h, ih seen p]
      constructor
      · rintro ⟨pre, post, hrest, hnot, hall⟩
        refine ⟨a :: pre, post, by rw [hrest]; rfl, hnot, ?_⟩
        intro q hq
        rcases List.mem_cons.mp hq with rfl | hq2
        · intro heq; exact hnot (heq ▸ h)
        · exact hall q hq2
      · rintro ⟨pre, post, hl, hnot, hall⟩
        cases pre with
        | nil =>
          simp at hl
          rcases hl with ⟨rfl, -⟩
          exact absurd h hnot
        | cons b pre2 =>
          simp at hl
          rcases hl with ⟨rfl, hrest⟩
          exact ⟨pre2, post, hrest, hnot, fun q hq => hall q (List.mem_cons_of_mem _ hq)⟩
    · rw [dedupeGo_cons_of_not_mem h]
      constructor
      · intro hp
        rcases List.mem_cons.mp hp with rfl | hp2
        · exact ⟨[], rest, rfl, h, by simp⟩
        · rcases (ih _ p).mp hp2 with ⟨pre, post, hrest, hnot, hall⟩
          have hne : canonicalKey tryHref p.link ≠ canonicalKey tryHref a.link := by
            intro heq; exact hnot (heq ▸ List.mem_cons_self _ _)
          refine ⟨a :: pre, post, by rw [hrest]; rfl, ?_, ?_⟩
          · intro hs; exact hnot (List.mem_cons_of_mem _ hs)
          · intro q hq
            rcases List.mem_cons.mp hq with rfl | hq2
            · exact fun heq => hne heq.symm
            · exact hall q hq2
      · rintro ⟨pre, post, hl, hnot, hall⟩
        cases pre with
        | nil =>
          simp at hl
          rcases hl with ⟨rfl, -⟩
          exact List.mem_cons_self _ _
        | cons b pre2 =>
          simp at hl
          rcases hl with ⟨rfl, hrest⟩
          have hba : canonicalKey tryHref a.link ≠ canonicalKey tryHref p.link :=
            hall a (List.mem_cons_self _ _)
          refine List.mem_cons_of_mem _ ((ih _ p).mpr ⟨pre2, post, hrest, ?_, ?_⟩)
          · intro hs
            rcases List.mem_cons.mp hs with heq | hs2
            · exact hba heq.symm
            · exact hnot hs2
          · intro q hq; exact hall q (List.mem_cons_of_mem _ hq)

lemma dedupeGo_eq_self (tryHref : String → Option String) (l : List Program) :
    ∀ seen,
      List.Pairwise
        (fun p q => canonicalKey tryHref p.link ≠ canonicalKey tryHref q.link) l →
      (∀ p ∈ l, canonicalKey tryHref p.link ∉ seen) →
      dedupeGo tryHref l seen = l := by
  induction l with
  | nil => intro seen _ _; simp [dedupeGo]
  | cons a rest ih =>
    intro seen hpw hfresh
    have ha : canonicalKey tryHref a.link ∉ seen :=
      hfresh a (List.mem_cons_self _ _)
    rw [dedupeGo_cons_of_not_mem ha]
    rcases List.pairwise_cons.mp hpw with ⟨hhead, htail⟩
    have : dedupeGo tryHref rest (canonicalKey tryHref a.link :: seen) = rest := by
      refine ih _ htail ?_
      intro p hp hs
      rcases List.mem_cons.mp hs with heq | hs2
      · exact hhead p hp heq.symm
      · exact hfresh p (List.mem_cons_of_mem _ hp) hs2
    rw [this]

/-! ### String scanning primitives

The JS parsers work with regexes over ordinary strings.  The scanners
below reproduce the exact leftmost-match, greedy semantics of the three
regexes used by background.js, character by character. -/

/-- The ASCII part of the JS regex whitespace class used in the
security.txt URL regex. -/
def jsWhitespace (c : Char) : Bool :=
  (c == ' ') || (c == '\t') || (c == '\n') || (c == '\r') ||
  (c == Char.ofNat 12) || (c == Char.ofNat 11)

/-- A character ending the URL run in the security.txt regex: the negated
class excludes double quote, single quote and whitespace. -/
def isUrlStop (c : Char) : Bool :=
  (c == '"') || (c == Char.ofNat 39) || jsWhitespace c

/-- JS txt.split on a regex matching an optional carriage return followed
by a newline: a lone carriage return does not split. -/
def splitLinesChars : List Char → List Char → List String
  | [], acc => [(acc.reverse).asString]
  | '\r' :: '\n' :: cs, acc => (acc.reverse).asString :: splitLinesChars cs []
  | '\n' :: cs, acc => (acc.reverse).asString :: splitLinesChars cs []
  | c :: cs, acc => splitLinesChars cs (c :: acc)

def splitLinesJs (s : String) : List String :=
  splitLinesChars s.data []

/-- At one position, match the security.txt URL regex: a case-insensitive
http or https scheme with the colon-slash-slash separator, followed by a
greedy non-empty run of non-stop characters.  Returns the matched text
with its original casing, or none. -/
def httpRunAt (cs : List Char) : Option String :=
  match cs with
  | c1 :: c2 :: c3 :: c4 :: rest =>
    if (c1.toLower == 'h') && (c2.toLower == 't') && (c3.toLower == 't') &&
        (c4.toLower == 'p') then
      match rest with
      | c5 :: c6 :: c7 :: c8 :: rest2 =>
        if (c5.toLower == 's') && (c6 == ':') && (c7 == '/') && (c8 == '/') then
          let run := rest2.takeWhile (fun ch => !(isUrlStop ch))
          if run.isEmpty then none
          else some (([c1, c2, c3, c4, c5, c6, c7, c8] ++ run).asString)
        else if (c5 == ':') && (c6 == '/') && (c7 == '/') then
          let run := (c8 :: rest2).takeWhile (fun ch => !(isUrlStop ch))
          if run.isEmpty then none
          else some (([c1, c2, c3, c4, c5, c6, c7] ++ run).asString)
        else none
      | _ => none
    else none
  | _ => none

/-- Leftmost match of the security.txt URL regex in one line, as produced
by line.match in parseSecurityTxt. -/
def findUrl : List Char → Option String
  | [] => none
  | c :: cs =>
    match httpRunAt (c :: cs) with
    | some u => some u
    | none => findUrl cs

/-- background.js parseSecurityTxt: split into lines, and each line whose
first URL-regex match exists contributes one Security.txt record. -/
def parseSecurityTxt (txt domain : String) : List Program :=
  (splitLinesJs txt).filterMap (fun line =>
    (findUrl line.data).map (fun u => makeProgram "Security.txt" u domain))

/-- Quote characters recognised by the href regex of
parseHomepageForBounty. -/
def quoteChar (c : Char) : Bool :=
  (c == '"') || (c == Char.ofNat 39)

/-- Case-insensitive match of the literal h r e f followed by an equals
sign, as the href regex runs under the i flag. -/
def hrefEq (c1 c2 c3 c4 c5 : Char) : Bool :=
  (c1.toLower == 'h') && (c2.toLower == 'r') && (c3.toLower == 'e') &&
  (c4.toLower == 'f') && (c5 == '=')

/-- The greedy capture of the href regex: a run of characters that are
neither kind of quote, ended by the first quote character (of either
kind, as the closing class accepts both).  Returns the run and the input
after the closing quote; none when no closing quote exists, in which
case the regex cannot match at this position. -/
def spanToQuote : List Char → Option (List Char × List Char)
  | [] => none
  | c :: cs =>
    if quoteChar c then some ([], cs)
    else
      match spanToQuote cs with
      | some (v, r) => some (c :: v, r)
      | none => none

/-- One match attempt of the href regex at the current position: the
literal href= (case-insensitive), an opening quote of either kind, then
a non-empty greedy run up to the closing quote.  Returns the captured
attribute value and the input after the match. -/
def hrefMatchAt : List Char → Option (String × List Char)
  | c1 :: c2 :: c3 :: c4 :: c5 :: q :: rest =>
    if hrefEq c1 c2 c3 c4 c5 && quoteChar q then
      match spanToQuote rest with
      | some (v, r) => if v.isEmpty then none else some (v.asString, r)
      | none => none
    else none
  | _ => none

/-- The global exec loop over the href regex of parseHomepageForBounty:
emit the leftmost match and resume after its closing quote (the regex
lastIndex), otherwise advance one character.  The fuel argument, always
instantiated with the input length, only bounds the recursion: each step
consumes at least one character, so it never runs out. -/
def hrefLoop : Nat → List Char → List String
  | 0, _ => []
  | _ + 1, [] => []
  | fuel + 1, c :: cs =>
    match hrefMatchAt (c :: cs) with
    | some (v, r) => v :: hrefLoop fuel r
    | none => hrefLoop fuel cs

/-- All href attribute values of the markup, in document order. -/
def extractHrefs (html : String) : List String :=
  hrefLoop html.data.length html.data

/-- Case-insensitive substring occurrence: pat occurs somewhere in the
text, comparing characters through toLower as the i flag does. -/
def matchesCIAt : List Char → List Char → Bool
  | [], _ => true
  | _ :: _, [] => false
  | p :: ps, c :: cs => (c.toLower == p.toLower) && matchesCIAt ps cs

def containsCIChars (pat : List Char) : List Char → Bool
  | [] => matchesCIAt pat []
  | c :: cs => matchesCIAt pat (c :: cs) || containsCIChars pat cs

def containsCI (s pat : String) : Bool :=
  containsCIChars pat.data s.data

/-- The platform-name alternation tested against each resolved link. -/
def platformNameIn (link : String) : Bool :=
  containsCI link "hackerone" || containsCI link "bugcrowd" ||
  containsCI link "intigriti" || containsCI link "yeswehack"

/-- The keyword alternation tested against the whole markup. -/
def hasBountyKeyword (html : String) : Bool :=
  containsCI html "bug bounty" || containsCI html "responsible disclosure" ||
  containsCI html "vulnerability"

/-- Relative links starting with a slash are resolved against the https
homepage of the domain, as in parseHomepageForBounty. -/
def resolveLink (domain link : String) : String :=
  if startsWithStr link "/" then "https://" ++ domain ++ link else link

/-- background.js parseHomepageForBounty: one Platform record per href
value whose resolved link mentions a platform name, then one Website
record for the bare domain when the markup mentions a bounty keyword. -/
def parseHomepageForBounty (html domain : String) : List Program :=
  ((extractHrefs html).filterMap (fun v =>
      let link := resolveLink domain v
      if platformNameIn link then some (makeProgram "Platform" link domain)
      else none))
    ++ (if hasBountyKeyword html then
          [makeProgram "Website" ("https://" ++ domain) domain]
        else [])

/-! ### Network probes and manual registry -/

/-- Outcome of one fetch as seen by the probe code: either a response
with an HTTP status, or a network error, CORS rejection or timeout
(the AbortController path), which the code absorbs silently. -/
inductive FetchResult where
  | response (status : Nat)
  | failure
deriving DecidableEq, Repr

/-- resp.ok of the Fetch API: status in the inclusive range 200 to 299. -/
def respOk (status : Nat) : Bool :=
  (200 ≤ status) && (status < 300)

/-- The hit test of probeKnownPlatformPaths: resp.ok or a 301 or 302
redirect; errors and timeouts contribute nothing. -/
def probeHit : FetchResult → Bool
  | FetchResult.response status => respOk status || (status == 301) || (status == 302)
  | FetchResult.failure => false

/-- The four fixed platform URL templates probed for a domain, in source
order. -/
def platformUrls (domain : String) : List String :=
  ["https://hackerone.com/" ++ domain,
   "https://bugcrowd.com/" ++ domain,
   "https://yeswehack.com/programs/" ++ domain,
   "https://intigriti.com/bug-bounty/" ++ domain]

/-- background.js probeKnownPlatformPaths: each URL is fetched (the fetch
oracle maps a URL to its outcome); hits become Platform records collected
in URL order, which is what Promise.allSettled over the mapped promise
array yields since every probe promise fulfills. -/
def probeKnownPlatformPaths (fetch : String → FetchResult) (domain : String) :
    List Program :=
  (platformUrls domain).filterMap (fun u =>
    if probeHit (fetch u) then some (makeProgram "Platform" u domain) else none)

/-- A Manual Program Entry held in the chrome.storage manualPrograms
list (dateAdded is irrelevant to the lookup path and omitted). -/
structure ManualEntry where
  domain : String
  url : String
deriving DecidableEq, Repr

/-- background.js getManualPrograms: filter the stored entries by exact
domain equality and map each to a Manual record whose scope is the input
domain.  Pure on the stored list: no network, cannot fail. -/
def getManualPrograms (store : List ManualEntry) (domain : String) :
    List Program :=
  (store.filter (fun p => p.domain == domain)).map
    (fun p => makeProgram "Manual" p.url domain)

/-! ### Orchestrator -/

/-- Records contributed by the Security-Policy probe: parseSecurityTxt
runs only when fetchSecurityTxt returned a body. -/
def securityPolicyRecords (secTxt : Option String) (domain : String) :
    List Program :=
  match secTxt with
  | some t => parseSecurityTxt t domain
  | none => []

/-- Records contributed by the Homepage probe: parseHomepageForBounty
runs only when fetchHtml returned markup. -/
def homepageRecords (homeHtml : Option String) (domain : String) :
    List Program :=
  match homeHtml with
  | some h => parseHomepageForBounty h domain
  | none => []

/-- background.js lookupBountyPrograms: concatenate the four probe
outputs in source order (security.txt, homepage, platform paths, manual)
and dedupe.  The fetched bodies and the storage contents are the
ambient-world inputs. -/
def lookupBountyPrograms (tryHref : String → Option String)
    (secTxt homeHtml : Option String) (fetch : String → FetchResult)
    (store : List ManualEntry) (domain : String) : List Program :=
  dedupePrograms tryHref
    (securityPolicyRecords secTxt domain
      ++ homepageRecords homeHtml domain
      ++ probeKnownPlatformPaths fetch domain
      ++ getManualPrograms store domain)

/-- The data part of the lookup response; programs is absent (none) on
the not-found branch of performLookup. -/
structure LookupData where
  found : Bool
  programs : Option (List Program)
deriving DecidableEq, Repr

/-- The value returned by performLookup in the fixed background.js: a
message, the data object, and a mirrored top-level found flag. -/
structure PerformResult where
  message : String
  data : LookupData
  found : Bool
deriving DecidableEq, Repr

/-- background.js performLookup. -/
def performLookup (tryHref : String → Option String)
    (secTxt homeHtml : Option String) (fetch : String → FetchResult)
    (store : List ManualEntry) (domain : String) : PerformResult :=
  let programs := lookupBountyPrograms tryHref secTxt homeHtml fetch store domain
  if programs.isEmpty then
    { message := "No program found for " ++ domain,
      data := { found := false, programs := none }, found := false }
  else
    { message := "Programs found for " ++ domain,
      data := { found := true, programs := some programs }, found := true }

/-! ### Domain result cache and badge controller -/

/-- The 10-minute TTL used when caching a lookup result. -/
def cacheTTLms : Nat := 10 * 60 * 1000

/-- A domainCache entry: only the found boolean and the write time are
stored, never the program list. -/
structure CacheEntry where
  found : Bool
  timestamp : Nat
deriving DecidableEq, Repr

/-- Presence of a cache entry at a read time: the entry exists from its
write time until the deletion that domainCache.set schedules (setTimeout
for write time plus TTL, taken to fire at its due time) removes it. -/
def cacheEntryPresent (entry : CacheEntry) (readTime : Nat) : Bool :=
  (entry.timestamp ≤ readTime) && (readTime < entry.timestamp + cacheTTLms)

/-- The hasPrograms test on the miss path of checkDomainAndUpdateBadge:
data.found, a present (truthy) programs array, and a positive length. -/
def hasPrograms (r : PerformResult) : Bool :=
  r.data.found &&
    (match r.data.programs with
     | some l => decide (0 < l.length)
     | none => false)

/-- What the badge path did for a domain: a cache hit carries only the
cached boolean (no program list exists in the cache to return); a miss
runs performLookup afresh, whose outcome then drives the badge and is
written back to the cache. -/
inductive BadgeUpdate where
  | cachedHit (found : Bool)
  | recomputed (result : PerformResult)
deriving DecidableEq, Repr

/-- checkDomainAndUpdateBadge of the fixed background.js, for a domain
whose last cache write is the given entry: domainCache.has succeeds
exactly while the entry is present, and then the cached found boolean is
used; otherwise performLookup recomputes. -/
def checkDomainAndUpdateBadge (entry : CacheEntry) (readTime : Nat)
    (tryHref : String → Option String) (secTxt homeHtml : Option String)
    (fetch : String → FetchResult) (store : List ManualEntry)
    (domain : String) : BadgeUpdate :=
  if cacheEntryPresent entry readTime then BadgeUpdate.cachedHit entry.found
  else BadgeUpdate.recomputed (performLookup tryHref secTxt homeHtml fetch store domain)

/-! ### Tab listeners and the extension-URL guard -/

/-- isExtensionUrl of the fixed background.js. -/
def isExtensionUrl (url : String) : Bool :=
  startsWithStr url "chrome://" || startsWithStr url "chrome-extension://" ||
  startsWithStr url "moz-extension://" || startsWithStr url "edge://" ||
  startsWithStr url "about:"

/-- What a tab update or activation trigger does after parsing the tab
URL: clear the badge, or run checkDomainAndUpdateBadge (the path into
the lookup orchestrator) for the resolved domain. -/
inductive TabAction where
  | clearBadge
  | runCheck (domain : String)
deriving DecidableEq, Repr

/-- The guard shared by the onUpdated and onActivated listeners of the
fixed background.js: href and hostname are the browser URL parse of
tab.url (the URL API is an external collaborator, so both strings are
inputs here). -/
def tabListenerAction (href hostname : String) : TabAction :=
  if (hostname != "") && !(isExtensionUrl href) then TabAction.runCheck hostname
  else TabAction.clearBadge

/-- The guard of the simplified background variant, which applies its
scheme tests to the hostname instead of to the URL. -/
def tabListenerActionSimple (hostname : String) : TabAction :=
  if (hostname != "") && !(startsWithStr hostname "chrome://") &&
      !(startsWithStr hostname "moz-extension://") &&
      !(startsWithStr hostname "chrome-extension://") then
    TabAction.runCheck hostname
  else TabAction.clearBadge

/-! ### API-key-enabled variant -/

/-- The in-memory session keys populated by the unlockKeys message. -/
structure ApiKeys where
  hackerone : Option String
  bugcrowd : Option String
deriving DecidableEq, Repr

/-- The response shape of the API-key variant (no top-level found). -/
structure LookupResponse where
  message : String
  data : LookupData
deriving DecidableEq, Repr

/-- The API pre-check of runLookupForActiveTab in the API-key variant:
tryHackerOneApi runs only when a HackerOne key is unlocked and its hit
(if any) is pushed, then likewise for Bugcrowd.  The two Option Program
arguments model what each API call would return, none covering every
API, network or CORS failure, which those functions swallow. -/
def apiResults (keys : ApiKeys) (h1Hit bcHit : Option Program) : List Program :=
  (match keys.hackerone, h1Hit with
   | some _, some p => [p]
   | _, _ => []) ++
  (match keys.bugcrowd, bcHit with
   | some _, some p => [p]
   | _, _ => [])

/-- runLookupForActiveTab of the API-key variant: when the authoritative
pre-check produced anything it is returned immediately; only otherwise
does the heuristic pipeline run and shape the response. -/
def runLookupForActiveTab (keys : ApiKeys) (h1Hit bcHit : Option Program)
    (tryHref : String → Option String) (secTxt homeHtml : Option String)
    (fetch : String → FetchResult) (store : List ManualEntry)
    (domain : String) : LookupResponse :=
  let api := apiResults keys h1Hit bcHit
  if api.length != 0 then
    { message := "Programs found for " ++ domain ++ " (via platform APIs)",
      data := { found := true, programs := some api } }
  else
    let programs := lookupBountyPrograms tryHref secTxt homeHtml fetch store domain
    if programs.isEmpty then
      { message := "No program found for " ++ domain,
        data := { found := false, programs := none } }
    else
      { message := "Programs found for " ++ domain,
        data := { found := true, programs := some programs } }

/-! ### Claim theorems -/

/-- C1: for every list of Program Records, Merge/Dedupe keys each record
by its canonical key (normalized absolute href with one trailing slash
stripped when the link parses, the raw link otherwise: canonicalKey),
never returns two records with the same key (pairwise conjunct), keeps
records in first-occurrence order (sublist conjunct), keeps exactly the
first record observed per key (membership characterization), and the
tie-break order is the probe concatenation order security.txt, homepage,
platform paths, manual (last conjunct). -/
theorem spec_C1 (tryHref : String → Option String) (l : List Program) :
    List.Pairwise
      (fun p q => canonicalKey tryHref p.link ≠ canonicalKey tryHref q.link)
      (dedupePrograms tryHref l)
    ∧ List.Sublist (dedupePrograms tryHref l) l
    ∧ (∀ p, p ∈ dedupePrograms tryHref l ↔
        ∃ pre post, l = pre ++ p :: post ∧
          ∀ q ∈ pre, canonicalKey tryHref q.link ≠ canonicalKey tryHref p.link)
    ∧ (∀ secTxt homeHtml fetch store domain,
        lookupBountyPrograms tryHref secTxt homeHtml fetch store domain
          = dedupePrograms tryHref
              (securityPolicyRecords secTxt domain
                ++ homepageRecords homeHtml domain
                ++ probeKnownPlatformPaths fetch domain
                ++ getManualPrograms store domain)) := by
  refine ⟨dedupeGo_pairwise tryHref l [], dedupeGo_sublist tryHref l [], ?_, ?_⟩
  · intro p
    rw [dedupePrograms, dedupeGo_mem_iff]
    constructor
    · rintro ⟨pre, post, h1, -, h3⟩
      exact ⟨pre, post, h1, h3⟩
    · rintro ⟨pre, post, h1, h3⟩
      exact ⟨pre, post, h1, by simp, h3⟩
  · intro _ _ _ _ _
    rfl

/-- Witness for C1 at a concrete duplicate pair: the first record for the
shared canonical key survives dedupe. -/
theorem spec_C1_witness :
    makeProgram "Security.txt" "https://a.example/x" "a.example"
      ∈ dedupePrograms (fun _ => none)
          [makeProgram "Security.txt" "https://a.example/x" "a.example",
           makeProgram "Platform" "https://a.example/x" "a.example"] :=
  ((spec_C1 (fun _ => none) _).2.2.1 _).mpr
    ⟨[], [makeProgram "Platform" "https://a.example/x" "a.example"], rfl, by simp⟩

/-- C10: the Merge/Dedupe stage is idempotent: applying dedupePrograms to
its own output returns that output unchanged. -/
theorem spec_C10 (tryHref : String → Option String) (l : List Program) :
    dedupePrograms tryHref (dedupePrograms tryHref l) = dedupePrograms tryHref l :=
  dedupeGo_eq_self tryHref _ [] (dedupeGo_pairwise tryHref l []) (by simp)

/-- C2: the lookup response sets found (and data.found) to whether the
merged, deduplicated program list is nonempty; when all four probes
return empty, the result has found false and an empty program list (the
data carries no programs field on that branch, so the program list it
denotes is empty). -/
theorem spec_C2 (tryHref : String → Option String) (secTxt homeHtml : Option String)
    (fetch : String → FetchResult) (store : List ManualEntry) (domain : String) :
    ((performLookup tryHref secTxt homeHtml fetch store domain).found
        = decide (0 < (lookupBountyPrograms tryHref secTxt homeHtml fetch store domain).length))
    ∧ ((performLookup tryHref secTxt homeHtml fetch store domain).data.found
        = (performLookup tryHref secTxt homeHtml fetch store domain).found)
    ∧ (securityPolicyRecords secTxt domain = [] →
        homepageRecords homeHtml domain = [] →
        probeKnownPlatformPaths fetch domain = [] →
        getManualPrograms store domain = [] →
        (performLookup tryHref secTxt homeHtml fetch store domain).found = false
          ∧ ((performLookup tryHref secTxt homeHtml fetch store domain).data.programs).getD [] = []) := by
  simp only [performLookup]
  generalize hl : lookupBountyPrograms tryHref secTxt homeHtml fetch store domain = progs
  cases progs with
  | nil =>
    refine ⟨by simp, by simp, ?_⟩
    intro _ _ _ _
    simp
  | cons a rest =>
    refine ⟨by simp, by simp, ?_⟩
    intro h1 h2 h3 h4
    rw [lookupBountyPrograms, h1, h2, h3, h4] at hl
    simp [dedupePrograms, dedupeGo] at hl

/-- Witness for C2 with every probe empty: no body fetched, every
platform fetch fails, empty manual store. -/
theorem spec_C2_witness :
    (performLookup (fun _ => none) none none (fun _ => FetchResult.failure) [] "example.com").found = false
    ∧ ((performLookup (fun _ => none) none none (fun _ => FetchResult.failure) [] "example.com").data.programs).getD [] = [] :=
  (spec_C2 (fun _ => none) none none (fun _ => FetchResult.failure) [] "example.com").2.2
    (by decide) (by decide) (by decide) (by decide)

/-- C3: the cache TTL is ten minutes in milliseconds; a badge-path read
while the entry written at time w with boolean b is still present (at or
after w, strictly before w plus TTL) is a hit returning only the stored
boolean (the cachedHit outcome carries no program list, as the cache
stores none), and a read strictly after w plus TTL misses and forces a
fresh performLookup run; expiry is the removal scheduled at write time,
modelled by cacheEntryPresent. -/
theorem spec_C3 (b : Bool) (w t : Nat) (tryHref : String → Option String)
    (secTxt homeHtml : Option String) (fetch : String → FetchResult)
    (store : List ManualEntry) (domain : String) :
    cacheTTLms = 600000
    ∧ (w ≤ t → t < w + cacheTTLms →
        checkDomainAndUpdateBadge ⟨b, w⟩ t tryHref secTxt homeHtml fetch store domain
          = BadgeUpdate.cachedHit b)
    ∧ (w + cacheTTLms < t →
        checkDomainAndUpdateBadge ⟨b, w⟩ t tryHref secTxt homeHtml fetch store domain
          = BadgeUpdate.recomputed (performLookup tryHref secTxt homeHtml fetch store domain)) := by
  refine ⟨rfl, ?_, ?_⟩
  · intro h1 h2
    have hp : cacheEntryPresent ⟨b, w⟩ t = true := by
      simp [cacheEntryPresent]
      omega
    simp [checkDomainAndUpdateBadge, hp]
  · intro h
    have hp : ¬ cacheEntryPresent ⟨b, w⟩ t = true := by
      simp [cacheEntryPresent]
      omega
    simp [checkDomainAndUpdateBadge, hp]

/-- Witness for C3: a read one millisecond before expiry hits with the
stored boolean; a read one millisecond after expiry recomputes. -/
theorem spec_C3_witness :
    checkDomainAndUpdateBadge ⟨true, 0⟩ 599999 (fun _ => none) none none
        (fun _ => FetchResult.failure) [] "example.com" = BadgeUpdate.cachedHit true
    ∧ checkDomainAndUpdateBadge ⟨true, 0⟩ 600001 (fun _ => none) none none
        (fun _ => FetchResult.failure) [] "example.com"
      = BadgeUpdate.recomputed
          (performLookup (fun _ => none) none none (fun _ => FetchResult.failure) [] "example.com") :=
  ⟨(spec_C3 true 0 599999 (fun _ => none) none none (fun _ => FetchResult.failure) [] "example.com").2.1
      (by decide) (by decide),
   (spec_C3 true 0 600001 (fun _ => none) none none (fun _ => FetchResult.failure) [] "example.com").2.2
      (by decide)⟩

/-- C4: the fixed background.js guard clears the badge for every
internal or extension URL and never reaches the lookup path (last
conjunct); but the simplified background variant tests its scheme guards
against the parsed hostname, and the browser URL parser turns the
internal URL chrome://settings into hostname settings, so that variant
runs checkDomainAndUpdateBadge for hostname settings instead of clearing
the badge (first conjunct), contradicting the claim and the intent
evidenced by its own clear-badge-for-extension-pages comment. -/
theorem spec_C4 :
    tabListenerActionSimple "settings" = TabAction.runCheck "settings"
    ∧ isExtensionUrl "chrome://settings" = true
    ∧ tabListenerAction "chrome://settings" "settings" = TabAction.clearBadge
    ∧ (∀ href hostname, isExtensionUrl href = true →
        tabListenerAction href hostname = TabAction.clearBadge) := by
  refine ⟨by decide, by decide, by decide, ?_⟩
  intro href hostname h
  simp [tabListenerAction, h]

/-- Witness for C4 discharging the guard hypothesis of the universally
quantified conjunct at a concrete extension URL. -/
theorem spec_C4_witness :
    tabListenerAction "moz-extension://abc/page.html" "abc" = TabAction.clearBadge :=
  spec_C4.2.2.2 "moz-extension://abc/page.html" "abc" (by decide)

/-- C5: in the API-key variant, whenever at least one authoritative API
pre-check yields a hit (a key is unlocked and the corresponding API call
returns a program), the response carries exactly the API hits and the
heuristic pipeline contributes nothing: the response equals the
API-branch record built from apiResults alone, and it is unchanged under
any replacement of every heuristic-pipeline input, so no heuristic
record is merged and the pipeline result is never consulted. -/
theorem spec_C5 (keys : ApiKeys) (h1Hit bcHit : Option Program)
    (tryHref : String → Option String) (secTxt homeHtml : Option String)
    (fetch : String → FetchResult) (store : List ManualEntry) (domain : String)
    (hhit : (keys.hackerone.isSome = true ∧ h1Hit.isSome = true)
      ∨ (keys.bugcrowd.isSome = true ∧ bcHit.isSome = true)) :
    runLookupForActiveTab keys h1Hit bcHit tryHref secTxt homeHtml fetch store domain
      = { message := "Programs found for " ++ domain ++ " (via platform APIs)",
          data := { found := true, programs := some (apiResults keys h1Hit bcHit) } }
    ∧ (∀ (tryHref2 : String → Option String) (secTxt2 homeHtml2 : Option String)
        (fetch2 : String → FetchResult) (store2 : List ManualEntry),
        runLookupForActiveTab keys h1Hit bcHit tryHref2 secTxt2 homeHtml2 fetch2 store2 domain
          = runLookupForActiveTab keys h1Hit bcHit tryHref secTxt homeHtml fetch store domain) := by
  have hne : (apiResults keys h1Hit bcHit).length ≠ 0 := by
    rcases hhit with ⟨hk, hh⟩ | ⟨hk, hh⟩
    · rcases Option.isSome_iff_exists.mp hk with ⟨k, hk2⟩
      rcases Option.isSome_iff_exists.mp hh with ⟨p, hp2⟩
      simp [apiResults, hk2, hp2]
    · rcases Option.isSome_iff_exists.mp hk with ⟨k, hk2⟩
      rcases Option.isSome_iff_exists.mp hh with ⟨p, hp2⟩
      simp [apiResults, hk2, hp2]
  have hcond : ((apiResults keys h1Hit bcHit).length != 0) = true := by
    simpa using hne
  constructor
  · simp [runLookupForActiveTab, hcond]
  · intro tryHref2 secTxt2 homeHtml2 fetch2 store2
    simp [runLookupForActiveTab, hcond]

/-- Witness for C5: a HackerOne key with an API hit short-circuits the
pipeline even though the manual store would produce a heuristic record. -/
theorem spec_C5_witness :
    runLookupForActiveTab ⟨some "KEY", none⟩
        (some (makeProgram "HackerOne" "https://hackerone.com/acme" "acme.com")) none
        (fun _ => none) none none (fun _ => FetchResult.failure)
        [⟨"acme.com", "https://acme.com/bounty"⟩] "acme.com"
      = { message := "Programs found for acme.com (via platform APIs)",
          data := { found := true,
                    programs := some [makeProgram "HackerOne" "https://hackerone.com/acme" "acme.com"] } } := by
  have h := (spec_C5 ⟨some "KEY", none⟩
      (some (makeProgram "HackerOne" "https://hackerone.com/acme" "acme.com")) none
      (fun _ => none) none none (fun _ => FetchResult.failure)
      [⟨"acme.com", "https://acme.com/bounty"⟩] "acme.com"
      (Or.inl ⟨rfl, rfl⟩)).1
  exact h

/-- C6: every one of the four fixed platform template URLs contributes a
Platform record with that URL as link exactly when its response has a
success status or a 301 or 302 redirect; an errored or timed-out check
(the failure outcome, which the code absorbs) contributes no record, and
the probe as a whole is a total function of the fetch outcomes, so no
failure propagates. -/
theorem spec_C6 (fetch : String → FetchResult) (domain url : String)
    (hmem : url ∈ platformUrls domain) :
    (makeProgram "Platform" url domain ∈ probeKnownPlatformPaths fetch domain
      ↔ probeHit (fetch url) = true)
    ∧ (∀ status, probeHit (FetchResult.response status)
        = (respOk status || (status == 301) || (status == 302)))
    ∧ probeHit FetchResult.failure = false := by
  refine ⟨?_, fun _ => rfl, rfl⟩
  constructor
  · intro hp
    rcases List.mem_filterMap.mp hp with ⟨u, _, hf⟩
    by_cases h : probeHit (fetch u) = true
    · rw [if_pos h] at hf
      have hud : u = url := congrArg Program.link (Option.some.inj hf)
      exact hud ▸ h
    · rw [if_neg h] at hf
      exact absurd hf (by simp)
  · intro h
    exact List.mem_filterMap.mpr ⟨url, hmem, by rw [if_pos h]⟩

/-- Witness for C6: with a fetch oracle answering 200 only on the
HackerOne template, that template's record is in the probe output. -/
theorem spec_C6_witness :
    makeProgram "Platform" "https://hackerone.com/example.com" "example.com"
      ∈ probeKnownPlatformPaths
          (fun u => if u == "https://hackerone.com/example.com"
                    then FetchResult.response 200 else FetchResult.failure)
          "example.com" :=
  ((spec_C6
      (fun u => if u == "https://hackerone.com/example.com"
                then FetchResult.response 200 else FetchResult.failure)
      "example.com" "https://hackerone.com/example.com" (by decide)).1).mpr (by decide)

/-- C9: the Manual-Registry probe returns exactly the stored entries
whose domain equals the input domain (exact string equality), each
mapped to a Manual record whose link is the entry URL and whose scope is
the input domain; it is a pure total function of the stored list, so it
performs no network I/O and cannot fail. -/
theorem spec_C9 :
    (∀ (store : List ManualEntry) (domain : String) (p : Program),
        p ∈ getManualPrograms store domain
          ↔ ∃ e, e ∈ store ∧ e.domain = domain ∧ p = makeProgram "Manual" e.url domain)
    ∧ (∀ (store : List ManualEntry) (domain : String) (p : Program),
        p ∈ getManualPrograms store domain →
          p.platform = "Manual" ∧ p.scope = domain) := by
  constructor
  · intro store domain p
    constructor
    · intro hp
      rcases List.mem_map.mp hp with ⟨e, he, rfl⟩
      rcases List.mem_filter.mp he with ⟨he2, hd⟩
      exact ⟨e, he2, by simpa using hd, rfl⟩
    · rintro ⟨e, he, hd, rfl⟩
      exact List.mem_map.mpr ⟨e, List.mem_filter.mpr ⟨he, by simpa using hd⟩, rfl⟩
  · intro store domain p hp
    rcases List.mem_map.mp hp with ⟨e, _, rfl⟩
    exact ⟨rfl, rfl⟩

/-- Witness for C9 at the spec example entry, and showing no subdomain
match: only the exact-domain entry maps in. -/
theorem spec_C9_witness :
    makeProgram "Manual" "https://example.com/bounty" "example.com"
      ∈ getManualPrograms
          [⟨"sub.example.com", "https://sub.example.com/x"⟩,
           ⟨"example.com", "https://example.com/bounty"⟩] "example.com" :=
  (spec_C9.1 _ "example.com" _).mpr
    ⟨⟨"example.com", "https://example.com/bounty"⟩, by decide, rfl, rfl⟩

lemma length_filterMap_eq_length_filter {α β : Type} (f : α → Option β) (l : List α) :
    (l.filterMap f).length = (l.filter (fun a => (f a).isSome)).length := by
  induction l with
  | nil => rfl
  | cons a l ih =>
    cases h : f a <;>
      simp [List.filterMap_cons, List.filter_cons, h, ih]

/-- C7: parseSecurityTxt splits the body into lines, and each line whose
leftmost URL-regex match exists contributes one Security.txt record with
the matched URL as link (membership conjunct and count conjunct: the
output has exactly one record per matching line); in particular the line
Contact followed by the HackerOne program URL yields that record. -/
theorem spec_C7 :
    (∀ (txt domain line : String) (u : String),
        line ∈ splitLinesJs txt → findUrl line.data = some u →
          makeProgram "Security.txt" u domain ∈ parseSecurityTxt txt domain)
    ∧ (∀ txt domain, (parseSecurityTxt txt domain).length
        = ((splitLinesJs txt).filter (fun line => (findUrl line.data).isSome)).length)
    ∧ parseSecurityTxt "Contact: https://hackerone.com/example" "example.com"
        = [makeProgram "Security.txt" "https://hackerone.com/example" "example.com"] := by
  refine ⟨?_, ?_, by decide⟩
  · intro txt domain line u hline hurl
    exact List.mem_filterMap.mpr ⟨line, hline, by rw [hurl]; rfl⟩
  · intro txt domain
    rw [parseSecurityTxt, length_filterMap_eq_length_filter]
    congr 1
    apply List.filter_congr
    intro line _
    cases findUrl line.data <;> rfl

/-- Witness for C7: a multi-line body containing the Contact line yields
the HackerOne record. -/
theorem spec_C7_witness :
    makeProgram "Security.txt" "https://hackerone.com/example" "example.com"
      ∈ parseSecurityTxt "# policy\r\nContact: https://hackerone.com/example\nExpires: 2026" "example.com" :=
  spec_C7.1 _ "example.com" "Contact: https://hackerone.com/example"
    "https://hackerone.com/example" (by decide) (by decide)

lemma containsCIChars_append_right (pat l1 l2 : List Char)
    (h : containsCIChars pat l2 = true) :
    containsCIChars pat (l1 ++ l2) = true := by
  induction l1 with
  | nil => simpa using h
  | cons c cs ih =>
    rw [List.cons_append, containsCIChars]
    simp only [Bool.or_eq_true]
    exact Or.inr ih

lemma containsCI_append_right (s1 s2 pat : String)
    (h : containsCI s2 pat = true) :
    containsCI (s1 ++ s2) pat = true := by
  unfold containsCI at h ⊢
  have hd : (s1 ++ s2).data = s1.data ++ s2.data := rfl
  rw [hd]
  exact containsCIChars_append_right pat.data s1.data s2.data h

lemma platformNameIn_resolveLink (domain v : String)
    (h : platformNameIn v = true) :
    platformNameIn (resolveLink domain v) = true := by
  rw [resolveLink]
  by_cases hs : startsWithStr v "/" = true
  · rw [if_pos hs]
    unfold platformNameIn at h ⊢
    simp only [Bool.or_eq_true] at h ⊢
    rcases h with ((h | h) | h) | h
    · exact Or.inl (Or.inl (Or.inl (containsCI_append_right _ _ _ h)))
    · exact Or.inl (Or.inl (Or.inr (containsCI_append_right _ _ _ h)))
    · exact Or.inl (Or.inr (containsCI_append_right _ _ _ h))
    · exact Or.inr (containsCI_append_right _ _ _ h)
  · rw [if_neg hs]
    exact h

/-- C8: every href attribute value containing a platform-name substring
(case-insensitively) yields a Platform record whose link is the value
resolved against the https homepage of the domain (first conjunct); the
Website record is emitted independently, exactly once when the markup
mentions a bounty keyword and never otherwise (count conjunct); and the
claimed concrete markup, whose only link matches no platform name but
whose text says responsible disclosure, yields exactly one Website
record and no Platform record. -/
theorem spec_C8 :
    (∀ (html domain v : String), v ∈ extractHrefs html → platformNameIn v = true →
        makeProgram "Platform" (resolveLink domain v) domain
          ∈ parseHomepageForBounty html domain)
    ∧ (∀ html domain,
        ((parseHomepageForBounty html domain).filter
            (fun p => p.platform == "Website")).length
          = if hasBountyKeyword html then 1 else 0)
    ∧ parseHomepageForBounty
        "<a href=\"/security/bugbounty\">responsible disclosure</a>" "example.com"
        = [makeProgram "Website" "https://example.com" "example.com"] := by
  refine ⟨?_, ?_, by decide⟩
  · intro html domain v hv hplat
    have hres : platformNameIn (resolveLink domain v) = true :=
      platformNameIn_resolveLink domain v hplat
    apply List.mem_append_left
    exact List.mem_filterMap.mpr ⟨v, hv, by simp [hres]⟩
  · intro html domain
    unfold parseHomepageForBounty
    rw [List.filter_append, List.length_append]
    have h1 : ((extractHrefs html).filterMap (fun v =>
        let link := resolveLink domain v
        if platformNameIn link then some (makeProgram "Platform" link domain)
        else none)).filter (fun p => p.platform == "Website") = [] := by
      rw [List.filter_eq_nil_iff]
      intro p hp
      rcases List.mem_filterMap.mp hp with ⟨v, _, hf⟩
      simp only at hf
      by_cases h : platformNameIn (resolveLink domain v) = true
      · rw [if_pos h] at hf
        rw [← Option.some.inj hf]
        simp [makeProgram]
      · rw [if_neg h] at hf
        exact absurd hf (by simp)
    rw [h1]
    by_cases hk : hasBountyKeyword html = true
    · simp [hk, makeProgram, List.filter_cons]
    · simp [hk]

/-- Witness for C8: a relative href value naming hackerone resolves
against the domain and yields a Platform record. -/
theorem spec_C8_witness :
    makeProgram "Platform" "https://example.com/hackerone" "example.com"
      ∈ parseHomepageForBounty "<a href=\"/hackerone\">security page</a>" "example.com" :=
  spec_C8.1 "<a href=\"/hackerone\">security page</a>" "example.com" "/hackerone"
    (by decide) (by decide)

end BountyWatch
